import Mathlib

/-
Verification of the playlist core of fredrikhl/radio-pls.

The repository holds two Python files with parallel implementations:
  * make_radio_pls.py : tag-based playlist collection (PlsEntry, PlaylistCollection)
  * radio.pls.py      : named/grouped collections (PlsEntry, PlsPlaylist, PlaylistCollection)

Each Python class and function is embedded below as an executable Lean
definition (definitions first, theorems after).  Python lists and ordered
dicts become Lean lists and association lists; fallible code returns
Except; Python 2 equality (which falls back to the user cmp method) is
made explicit per type.
-/

namespace RadioPls

/-! ## make_radio_pls.py : data model -/

/-- Playlist entry from make_radio_pls.py (class PlsEntry): a title, a file
url, an integer length (default -1) and a set of tags.  The Python tag set is
modelled by the list of its members; only membership is ever observed. -/
structure PlsEntry where
  title : String
  file : String
  length : Int
  tags : List String
deriving DecidableEq, Repr

/-- Python 2 equality on PlsEntry: with only a user-defined cmp method,
`a == b` falls back to comparing by title (make_radio_pls.py lines 66-70). -/
def PlsEntry.eqPy (a b : PlsEntry) : Bool :=
  a.title == b.title

/-- Tag membership test (make_radio_pls.py lines 91-92). -/
def PlsEntry.has_tag (e : PlsEntry) (tag : String) : Bool :=
  e.tags.contains tag

/-- The stanza template of make_radio_pls.py (format_entry, lines 26-30 and
44-46): three lines Title/File/Length keyed by the entry number. -/
def format_entry (title url : String) (length : Int) (num : Nat) : String :=
  "Title" ++ toString num ++ "=" ++ title ++ "\n" ++
  "File" ++ toString num ++ "=" ++ url ++ "\n" ++
  "Length" ++ toString num ++ "=" ++ toString length

/-- PlsEntry formatting with an explicit entry number
(make_radio_pls.py lines 87-89). -/
def PlsEntry.format (e : PlsEntry) (num : Nat) : String :=
  format_entry e.title e.file e.length num

/-- The generator expression of format_playlist: formats every entry of the
list, numbering consecutively from the given start (enumerate(entries, 1)). -/
def formatEntriesFrom (num : Nat) : List PlsEntry → List String
  | [] => []
  | e :: rest => e.format num :: formatEntriesFrom (num + 1) rest

/-- format_playlist (make_radio_pls.py lines 33-41): header, the stanzas
joined by blank lines, a blank line and the NumberOfEntries/Version footer. -/
def format_playlist (entries : List PlsEntry) : String :=
  "[playlist]\n\n" ++
  String.intercalate "\n\n" (formatEntriesFrom 1 entries) ++
  "\n\nNumberOfEntries=" ++ toString entries.length ++ "\nVersion=2"

/-! ## make_radio_pls.py : PlaylistCollection

The collection stores a Python list of entries; it is modelled by
`List PlsEntry`, and its methods by functions in the `PC` namespace. -/

/-- PlaylistCollection.add (make_radio_pls.py lines 114-119): membership is
tested with Python `in`, i.e. by-title equality; a present entry is skipped,
a new entry is appended at the end. -/
def PC.add (es : List PlsEntry) (item : PlsEntry) : List PlsEntry :=
  if es.any (fun x => PlsEntry.eqPy x item) then es
  else es ++ [item]

/-- PlaylistCollection.get (make_radio_pls.py lines 121-126): yields every
entry when no tags are given, otherwise the entries having any of the tags.
This is the list of values the generator yields, in yield order. -/
def PC.get (es : List PlsEntry) (tags : List String) : List PlsEntry :=
  es.filter (fun item => tags.isEmpty || tags.any (fun t => item.has_tag t))

/-- The state of the generator object returned by PlaylistCollection.get
(a generator function, make_radio_pls.py lines 121-126): the values it has
not yet yielded.  Once exhausted a generator stays exhausted. -/
structure EntryGen where
  remaining : List PlsEntry
deriving DecidableEq, Repr

/-- Calling PlaylistCollection.get: a fresh generator whose pending values
are the entries the loop will yield. -/
def PC.getGen (es : List PlsEntry) (tags : List String) : EntryGen :=
  ⟨PC.get es tags⟩

/-- Fully traversing a generator (iterating to StopIteration): the values
obtained, and the exhausted generator left behind. -/
def EntryGen.traverse (g : EntryGen) : List PlsEntry × EntryGen :=
  (g.remaining, ⟨[]⟩)

/-- Error kinds of the core, named as the specification names them. -/
inductive PlsError where
  | invalidItem (v : String)
  | missingField (field : String)
deriving DecidableEq, Repr

/-- Decidable success test for a fallible computation. -/
def exceptIsOk {ε α : Type} : Except ε α → Bool
  | .ok _ => true
  | .error _ => false

/-- A configuration record (a parsed YAML/JSON mapping) as consumed by
PlsEntry.from_dict: the fields the code reads, each possibly absent. -/
structure Record where
  name : Option String
  url : Option String
  tags : Option (List String)
deriving DecidableEq, Repr

/-- PlsEntry.from_dict (make_radio_pls.py lines 94-96): subscripting a
missing key raises KeyError (the MissingField failure), dict.get gives
None for absent tags, and the constructor turns None into the empty set. -/
def PlsEntry.from_dict (d : Record) : Except PlsError PlsEntry :=
  match d.name with
  | none => .error (.missingField "name")
  | some n =>
    match d.url with
    | none => .error (.missingField "url")
    | some u => .ok ⟨n, u, -1, d.tags.getD []⟩

/-- A value passed to make_radio_pls.py PlaylistCollection or its add: a
PlsEntry, or any other Python value (carried as its repr text). -/
inductive ItemM where
  | entry (e : PlsEntry)
  | other (v : String)
deriving DecidableEq, Repr

/-- PlaylistCollection.add on an arbitrary value (make_radio_pls.py lines
114-116): a non-PlsEntry raises ValueError "Invalid item ..." before any
state change; a PlsEntry is added as usual. -/
def PC.addItem (es : List PlsEntry) (v : ItemM) : Except PlsError (List PlsEntry) :=
  match v with
  | ItemM.entry e => .ok (PC.add es e)
  | ItemM.other r => .error (.invalidItem r)

/-- The varargs constructor loop (make_radio_pls.py lines 102-108): starting
from the empty list, each argument is type-checked (raising on a
non-PlsEntry) and added. -/
def PC.initLoop (acc : List PlsEntry) : List ItemM → Except PlsError (List PlsEntry)
  | [] => .ok acc
  | v :: rest =>
    match PC.addItem acc v with
    | .ok acc2 => PC.initLoop acc2 rest
    | .error err => .error err

/-- PlaylistCollection(*args) of make_radio_pls.py. -/
def PC.init (args : List ItemM) : Except PlsError (List PlsEntry) :=
  PC.initLoop [] args

/-! ## radio.pls.py : data model -/

/-- Playlist entry from radio.pls.py (class PlsEntry, lines 18-70): title,
file url and integer length; this variant has no tags. -/
structure RPlsEntry where
  title : String
  file : String
  length : Int
deriving DecidableEq, Repr

/-- Python 2 equality on the radio.pls.py entry: cmp by title
(radio.pls.py lines 48-52). -/
def RPlsEntry.eqPy (a b : RPlsEntry) : Bool :=
  a.title == b.title

/-- PlsEntry.make_entry (radio.pls.py lines 40-46): the three stanza lines
joined by newlines. -/
def RPlsEntry.make_entry (title url : String) (length : Int) (num : Nat) : String :=
  "Title" ++ toString num ++ "=" ++ title ++ "\n" ++
  "File" ++ toString num ++ "=" ++ url ++ "\n" ++
  "Length" ++ toString num ++ "=" ++ toString length

/-- PlsEntry.str (radio.pls.py lines 68-70). -/
def RPlsEntry.str (e : RPlsEntry) (num : Nat) : String :=
  RPlsEntry.make_entry e.title e.file e.length num

/-- The list comprehension of make_pls: formats every entry, numbering
consecutively from the given start (enumerate with idx + 1). -/
def makeEntriesFrom (num : Nat) : List RPlsEntry → List String
  | [] => []
  | e :: rest => e.str num :: makeEntriesFrom (num + 1) rest

/-- PlsPlaylist.make_pls / PlaylistCollection.make_pls (radio.pls.py lines
132-138 and 192-198): PLAYLIST_FORMAT with the stanzas joined by blank
lines and the NumberOfEntries/Version footer. -/
def make_pls (pls_list : List RPlsEntry) : String :=
  "[playlist]\n\n" ++
  String.intercalate "\n\n" (makeEntriesFrom 1 pls_list) ++
  "\n\nNumberOfEntries=" ++ toString pls_list.length ++ "\nVersion=2"

/-! ## radio.pls.py : PlaylistCollection (named/grouped) -/

/-- The grouped collection of radio.pls.py (class PlaylistCollection, lines
174-248): a group symbol and an ordered mapping from name to entry.  The
Python OrderedDict is modelled by the association list of its bindings in
binding order; a None or empty symbol is falsy ("no group") and is
modelled by the empty string. -/
structure PlaylistCollectionR where
  symbol : String
  entries : List (String × RPlsEntry)
deriving DecidableEq, Repr

/-- Name prefixing as performed by add and get: with a truthy group symbol
the name is joined to it by an underscore (radio.pls.py lines 229-230). -/
def prefixName (sym name : String) : String :=
  if sym = "" then name else sym ++ "_" ++ name

/-- The names property (radio.pls.py lines 204-206): bound names in order. -/
def PlaylistCollectionR.names (c : PlaylistCollectionR) : List String :=
  c.entries.map Prod.fst

/-- PlaylistCollection.add (radio.pls.py lines 228-236): prefix the name;
if the (prefixed) name is already bound, drop that binding; otherwise, if
the item (by title equality) is already a bound value, drop its first
binding (key_of returns the first matching key); then bind at the end. -/
def PlaylistCollectionR.add (c : PlaylistCollectionR) (name : String)
    (item : RPlsEntry) : PlaylistCollectionR :=
  let key := prefixName c.symbol name
  if c.entries.any (fun p => p.1 == key) then
    { c with entries := c.entries.eraseP (fun p => p.1 == key) ++ [(key, item)] }
  else if c.entries.any (fun p => RPlsEntry.eqPy p.2 item) then
    { c with entries :=
        c.entries.eraseP (fun p => RPlsEntry.eqPy p.2 item) ++ [(key, item)] }
  else
    { c with entries := c.entries ++ [(key, item)] }

/-- PlaylistCollection.get (radio.pls.py lines 238-244): exact lookup; on a
miss with a truthy symbol, a second lookup with the prefixed name; a miss
there (an uncaught KeyError, the NotFound failure) is the none result. -/
def PlaylistCollectionR.get (c : PlaylistCollectionR) (name : String) :
    Option RPlsEntry :=
  match c.entries.find? (fun p => p.1 == name) with
  | some p => some p.2
  | none =>
    if c.symbol = "" then none
    else (c.entries.find? (fun p => p.1 == prefixName c.symbol name)).map Prod.snd

/-- A value passed to a radio.pls.py collection constructor: a PlsEntry, or
any other Python value (carried as its repr text). -/
inductive ItemR where
  | entry (e : RPlsEntry)
  | other (v : String)
deriving DecidableEq, Repr

/-- The constructor loops of radio.pls.py PlaylistCollection (lines
177-190): iterate bindings in sorted name order, silently skip any value
that is not a PlsEntry, and add the rest.  Both the class-attribute
harvesting loop and the keyword-argument loop have this shape; the
bindings they traverse are the input list. -/
def PlaylistCollectionR.initLoop (c : PlaylistCollectionR) :
    List (String × ItemR) → PlaylistCollectionR
  | [] => c
  | (name, ItemR.entry e) :: rest => PlaylistCollectionR.initLoop (c.add name e) rest
  | (_, ItemR.other _) :: rest => PlaylistCollectionR.initLoop c rest

/-- PlaylistCollection(symbol, **kwargs) of radio.pls.py: the bindings are
visited in sorted key order (sorted(kwargs.keys())). -/
def PlaylistCollectionR.init (symbol : String)
    (kwargs : List (String × ItemR)) : PlaylistCollectionR :=
  PlaylistCollectionR.initLoop ⟨symbol, []⟩
    (kwargs.insertionSort (fun a b => a.1 ≤ b.1))

/-! ## radio.pls.py : PlsPlaylist -/

/-- A value stored in a PlsPlaylist: a PlsEntry or a nested PlsPlaylist
(radio.pls.py lines 73-120), the latter carried as its title and ordered
bindings. -/
inductive PPItem where
  | entry (e : RPlsEntry)
  | playlist (title : String) (entries : List (String × PPItem))

/-- The unicode rendering of a stored item, which Python 2 comparison
between an entry and a playlist falls back to: an entry renders as its
title, a playlist as "title [names]" over its directly contained entry
names (the source recursion into nested sub-playlists, item.names() on
line 100, calls a generator property as a function and cannot produce
values, so only direct entry names are listed). -/
def PPItem.unicode : PPItem → String
  | .entry e => e.title
  | .playlist t es =>
    t ++ " [" ++ String.intercalate ", " (es.filterMap (fun p =>
      match p.2 with
      | .entry _ => some p.1
      | .playlist _ _ => none)) ++ "]"

/-- Python 2 equality between stored items: entries compare by title
(PlsEntry cmp); an entry and a playlist compare by their unicode
renderings (the cmp fallback); two distinct playlist objects never compare
equal (PlsPlaylist defines no equality, so CPython compares object
identities, and distinct objects are unequal). -/
def PPItem.eqPy : PPItem → PPItem → Bool
  | .entry a, .entry b => a.title == b.title
  | .entry a, .playlist t es => a.title == PPItem.unicode (.playlist t es)
  | .playlist t es, .entry b => PPItem.unicode (.playlist t es) == b.title
  | .playlist _ _, .playlist _ _ => false

/-- PlsPlaylist (radio.pls.py lines 73-171): a title and the ordered
name-to-item bindings of its OrderedDict. -/
structure PlsPlaylist where
  title : String
  entries : List (String × PPItem)

/-- PlsPlaylist.add (radio.pls.py lines 110-120): a name containing a dot
(Python " '.' in name ", i.e. the character occurs among the name's
characters) is silently ignored (early return); otherwise a binding under
the same name is dropped, or - when the item is already a bound value -
the first binding of the dict is dropped (the loop deletes the first key
and breaks, whatever its value); the new binding is then appended. -/
def PlsPlaylist.add (p : PlsPlaylist) (name : String) (item : PPItem) :
    PlsPlaylist :=
  if name.data.contains '.' then p
  else if p.entries.any (fun q => q.1 == name) then
    { p with entries := p.entries.eraseP (fun q => q.1 == name) ++ [(name, item)] }
  else if p.entries.any (fun q => PPItem.eqPy q.2 item) then
    { p with entries := p.entries.drop 1 ++ [(name, item)] }
  else
    { p with entries := p.entries ++ [(name, item)] }

/-! ## Helper lemmas -/

theorem formatEntriesFrom_length (n : Nat) (l : List PlsEntry) :
    (formatEntriesFrom n l).length = l.length := by
  induction l generalizing n with
  | nil => rfl
  | cons e rest ih => simp [formatEntriesFrom, ih]

theorem formatEntriesFrom_get? (l : List PlsEntry) (n i : Nat) :
    (formatEntriesFrom n l).get? i =
      (l.get? i).map (fun e => e.format (n + i)) := by
  induction l generalizing n i with
  | nil => simp [formatEntriesFrom]
  | cons e rest ih =>
    cases i with
    | zero => simp [formatEntriesFrom]
    | succ j =>
      have harith : n + 1 + j = n + (j + 1) := by omega
      simp only [formatEntriesFrom, List.get?_cons_succ]
      rw [ih, harith]

theorem makeEntriesFrom_length (n : Nat) (l : List RPlsEntry) :
    (makeEntriesFrom n l).length = l.length := by
  induction l generalizing n with
  | nil => rfl
  | cons e rest ih => simp [makeEntriesFrom, ih]

theorem makeEntriesFrom_get? (l : List RPlsEntry) (n i : Nat) :
    (makeEntriesFrom n l).get? i =
      (l.get? i).map (fun e => e.str (n + i)) := by
  induction l generalizing n i with
  | nil => simp [makeEntriesFrom]
  | cons e rest ih =>
    cases i with
    | zero => simp [makeEntriesFrom]
    | succ j =>
      have harith : n + 1 + j = n + (j + 1) := by omega
      simp only [makeEntriesFrom, List.get?_cons_succ]
      rw [ih, harith]

theorem eraseP_append_of_forall {α : Type} (p : α → Bool) (l₁ l₂ : List α)
    (h : ∀ x ∈ l₁, p x = false) :
    (l₁ ++ l₂).eraseP p = l₁ ++ l₂.eraseP p := by
  induction l₁ with
  | nil => simp
  | cons a t ih =>
    rw [List.cons_append,
      List.eraseP_cons_of_neg (by simp [h a (List.mem_cons_self a t)]),
      ih (fun x hx => h x (List.mem_cons_of_mem a hx)), List.cons_append]

theorem prefixName_ne_of_ne (sym x y : String) (h : x ≠ y) :
    prefixName sym x ≠ prefixName sym y := by
  unfold prefixName
  split
  · exact h
  · intro heq
    apply h
    apply String.ext
    have hd := congrArg String.data heq
    simp only [String.data_append, List.append_assoc] at hd
    exact List.append_cancel_left (List.append_cancel_left hd)

theorem prefixName_ne_self (sym n : String) (h : sym ≠ "") :
    prefixName sym n ≠ n := by
  unfold prefixName
  rw [if_neg h]
  intro heq
  have hlen := congrArg String.length heq
  simp only [String.length_append] at hlen
  have hsep : ("_" : String).length = 1 := rfl
  have hsym : sym.length ≠ 0 := by
    intro h0
    apply h
    cases sym with
    | mk data =>
      cases data with
      | nil => rfl
      | cons a t => simp [String.length] at h0
  omega

/-! ## Claim C1 : rendering -/

/-- C1: both renderers produce the text "[playlist]" followed by a blank
line, the per-entry three-line stanzas joined by blank lines, then a blank
line and the footer NumberOfEntries=N, Version=2; stanza i + 1 (1-based, by
sequence position) carries Title/File/Length of entry i, N is the number of
entries and equals the number of stanzas, hence of Title lines emitted. -/
theorem c1_render_format (es : List PlsEntry) (rs : List RPlsEntry) :
    (∃ stanzas : List String,
      format_playlist es =
        "[playlist]\n\n" ++ String.intercalate "\n\n" stanzas ++
          "\n\nNumberOfEntries=" ++ toString es.length ++ "\nVersion=2" ∧
      stanzas.length = es.length ∧
      ∀ i : Nat, stanzas.get? i = (es.get? i).map (fun e =>
        "Title" ++ toString (i + 1) ++ "=" ++ e.title ++ "\n" ++
        "File" ++ toString (i + 1) ++ "=" ++ e.file ++ "\n" ++
        "Length" ++ toString (i + 1) ++ "=" ++ toString e.length)) ∧
    (∃ stanzas : List String,
      make_pls rs =
        "[playlist]\n\n" ++ String.intercalate "\n\n" stanzas ++
          "\n\nNumberOfEntries=" ++ toString rs.length ++ "\nVersion=2" ∧
      stanzas.length = rs.length ∧
      ∀ i : Nat, stanzas.get? i = (rs.get? i).map (fun e =>
        "Title" ++ toString (i + 1) ++ "=" ++ e.title ++ "\n" ++
        "File" ++ toString (i + 1) ++ "=" ++ e.file ++ "\n" ++
        "Length" ++ toString (i + 1) ++ "=" ++ toString e.length)) := by
  constructor
  · refine ⟨formatEntriesFrom 1 es, rfl, formatEntriesFrom_length 1 es, ?_⟩
    intro i
    rw [formatEntriesFrom_get?]
    have hfun : (fun e : PlsEntry => e.format (1 + i)) = (fun e : PlsEntry =>
        "Title" ++ toString (i + 1) ++ "=" ++ e.title ++ "\n" ++
        "File" ++ toString (i + 1) ++ "=" ++ e.file ++ "\n" ++
        "Length" ++ toString (i + 1) ++ "=" ++ toString e.length) := by
      funext e
      simp [PlsEntry.format, format_entry, Nat.add_comm 1 i]
    rw [hfun]
  · refine ⟨makeEntriesFrom 1 rs, rfl, makeEntriesFrom_length 1 rs, ?_⟩
    intro i
    rw [makeEntriesFrom_get?]
    have hfun : (fun e : RPlsEntry => e.str (1 + i)) = (fun e : RPlsEntry =>
        "Title" ++ toString (i + 1) ++ "=" ++ e.title ++ "\n" ++
        "File" ++ toString (i + 1) ++ "=" ++ e.file ++ "\n" ++
        "Length" ++ toString (i + 1) ++ "=" ++ toString e.length) := by
      funext e
      simp [RPlsEntry.str, RPlsEntry.make_entry, Nat.add_comm 1 i]
    rw [hfun]

/-! ## Claim C2 : dedup idempotence -/

/-- C2: if the collection already holds an entry equal (by title) to `e`,
`add e` is a no-op: count and order are unchanged; in particular a second
add of the same entry leaves the state as after the first add. -/
theorem c2_add_idempotent (es : List PlsEntry) (e : PlsEntry) :
    ((∃ x ∈ es, x.title = e.title) → PC.add es e = es) ∧
    PC.add (PC.add es e) e = PC.add es e := by
  constructor
  · rintro ⟨x, hx, ht⟩
    unfold PC.add
    rw [if_pos]
    exact List.any_eq_true.2 ⟨x, hx, by simp [PlsEntry.eqPy, ht]⟩
  · by_cases h : es.any (fun x => PlsEntry.eqPy x e) = true
    · simp [PC.add, h]
    · have h2 : (es ++ [e]).any (fun x => PlsEntry.eqPy x e) = true := by
        refine List.any_eq_true.2 ⟨e, by simp, ?_⟩
        simp [PlsEntry.eqPy]
      simp [PC.add, h, h2]

/-- Witness for C2 at a concrete input: an entry with the same title but a
different url is already "present", so the add changes nothing. -/
theorem c2_add_idempotent_witness :
    PC.add [⟨"A", "urlA", -1, []⟩] ⟨"A", "urlB", -1, []⟩ =
      [⟨"A", "urlA", -1, []⟩] :=
  (c2_add_idempotent [⟨"A", "urlA", -1, []⟩] ⟨"A", "urlB", -1, []⟩).1
    ⟨⟨"A", "urlA", -1, []⟩, by simp⟩

/-! ## Claim C3 : tag filtering -/

/-- C3: with a non-empty tag list, `get` returns exactly the subsequence
(in insertion order) of entries carrying at least one of the tags — empty
when no entry matches — and with no tags it returns all entries. -/
theorem c3_get_filter (es : List PlsEntry) (tags : List String) :
    (tags ≠ [] →
      PC.get es tags = es.filter (fun item => tags.any (fun t => item.has_tag t))) ∧
    PC.get es [] = es ∧
    (tags ≠ [] → (∀ x ∈ es, ∀ t ∈ tags, x.has_tag t = false) →
      PC.get es tags = []) := by
  refine ⟨?_, ?_, ?_⟩
  · intro h
    cases tags with
    | nil => exact absurd rfl h
    | cons t ts => simp [PC.get]
  · simp [PC.get]
  · intro h hall
    cases tags with
    | nil => exact absurd rfl h
    | cons t ts =>
      rw [PC.get, List.filter_eq_nil_iff]
      intro x hx
      simp only [List.isEmpty_cons, Bool.false_or, List.any_eq_true,
        not_exists, not_and]
      intro u hu
      simp [hall x hx u hu]

/-- Witness for C3 at a concrete input: only the tagged entry survives the
filter. -/
theorem c3_get_filter_witness :
    PC.get [⟨"A", "uA", -1, ["rock"]⟩, ⟨"B", "uB", -1, []⟩] ["rock", "news"] =
      [⟨"A", "uA", -1, ["rock"]⟩] :=
  ((c3_get_filter [⟨"A", "uA", -1, ["rock"]⟩, ⟨"B", "uB", -1, []⟩]
      ["rock", "news"]).1 (by simp)).trans (by decide)

/-! ## Claim C5 : get returns a single-use generator -/

/-- C5 counterexample: on a one-entry collection a first traversal of the
generator returned by get yields the entry, but a second traversal of the
same object yields nothing — not the same entries as the first, so the
result is a single-use cursor, not a restartable sequence. -/
theorem c5_counterexample :
    (PC.getGen [⟨"A", "uA", -1, []⟩] []).traverse.1 = [⟨"A", "uA", -1, []⟩] ∧
    ((PC.getGen [⟨"A", "uA", -1, []⟩] []).traverse.2).traverse.1 = [] ∧
    ([] : List PlsEntry) ≠ [⟨"A", "uA", -1, []⟩] :=
  ⟨rfl, rfl, by decide⟩

/-- C5 amended: the sequence returned by get is finite and yields exactly
the filtered entries in order, but it is single-use: a second traversal of
the already-consumed generator yields no entries (a fresh get call is
needed to traverse again). -/
theorem c5_single_use (es : List PlsEntry) (tags : List String) :
    (PC.getGen es tags).traverse.1 = PC.get es tags ∧
    ((PC.getGen es tags).traverse.2).traverse.1 = [] :=
  ⟨rfl, rfl⟩

/-! ## Claim C8 : Entry.fromRecord -/

/-- C8: from_dict succeeds exactly when both name and url are present, any
failure is a MissingField error, the record with only a url fails on the
missing name, and on success tags default to the empty set when absent. -/
theorem c8_from_dict (d : Record) :
    (exceptIsOk (PlsEntry.from_dict d) = (d.name.isSome && d.url.isSome)) ∧
    (∀ err, PlsEntry.from_dict d = .error err →
      ∃ f, err = PlsError.missingField f) ∧
    (PlsEntry.from_dict ⟨none, some "u", none⟩ =
      .error (.missingField "name")) ∧
    (∀ n u, PlsEntry.from_dict ⟨some n, some u, none⟩ = .ok ⟨n, u, -1, []⟩) ∧
    (∀ n u t, PlsEntry.from_dict ⟨some n, some u, some t⟩ = .ok ⟨n, u, -1, t⟩) := by
  obtain ⟨name, url, tags⟩ := d
  refine ⟨?_, ?_, rfl, fun n u => rfl, fun n u t => rfl⟩
  · cases name <;> cases url <;> rfl
  · intro err herr
    cases name <;> cases url <;> simp [PlsEntry.from_dict] at herr <;>
      exact ⟨_, herr.symm⟩

/-- Witness for C8 at a concrete input: the url-only record fails, and the
error it fails with is a MissingField error. -/
theorem c8_from_dict_witness :
    ∃ f, PlsError.missingField "name" = PlsError.missingField f :=
  (c8_from_dict ⟨none, some "u", none⟩).2.1 (PlsError.missingField "name") rfl

/-! ## Claim C9 : add appends fresh entries -/

/-- C9: adding an entry not yet present (no stored entry shares its title)
appends it at the end: the new state is exactly the old entries, unchanged
and in order, followed by the new entry. -/
theorem c9_add_appends (es : List PlsEntry) (e : PlsEntry) :
    (∀ x ∈ es, x.title ≠ e.title) → PC.add es e = es ++ [e] := by
  intro h
  unfold PC.add
  rw [if_neg]
  intro hany
  obtain ⟨x, hx, hbe⟩ := List.any_eq_true.1 hany
  exact h x hx (by simpa [PlsEntry.eqPy] using hbe)

/-- Witness for C9 at a concrete input: a fresh title is appended after the
existing entry. -/
theorem c9_add_appends_witness :
    PC.add [⟨"A", "uA", -1, []⟩] ⟨"B", "uB", -1, []⟩ =
      [⟨"A", "uA", -1, []⟩, ⟨"B", "uB", -1, []⟩] :=
  c9_add_appends [⟨"A", "uA", -1, []⟩] ⟨"B", "uB", -1, []⟩ (by decide)

/-! ## Helper lemmas for the named collection -/

theorem find?_eraseP_key_none (l : List (String × RPlsEntry)) (k : String)
    (h : (l.map Prod.fst).Nodup) :
    (l.eraseP (fun p => p.1 == k)).find? (fun p => p.1 == k) = none := by
  induction l with
  | nil => rfl
  | cons a t ih =>
    rw [List.map_cons, List.nodup_cons] at h
    by_cases hpa : (a.1 == k) = true
    · rw [@List.eraseP_cons_of_pos _ a t (fun q => q.1 == k) hpa,
        List.find?_eq_none]
      intro x hx
      simp only [beq_iff_eq]
      intro hxk
      apply h.1
      have hak : a.1 = k := by simpa using hpa
      rw [hak, ← hxk]
      exact List.mem_map_of_mem Prod.fst hx
    · rw [@List.eraseP_cons_of_neg _ a t (fun q => q.1 == k) hpa,
        @List.find?_cons_of_neg _ (fun q => q.1 == k) a
          (List.eraseP (fun q => q.1 == k) t) hpa]
      exact ih h.2

theorem getR_aux (sym : String) (E : List (String × RPlsEntry))
    (key n2 : String) (A : RPlsEntry)
    (hsym : sym ≠ "")
    (hpre : prefixName sym n2 = key)
    (hkn : key ≠ n2)
    (hEn : ∀ p ∈ E, p.1 ≠ n2)
    (hEk : E.find? (fun p => p.1 == key) = none) :
    PlaylistCollectionR.get ⟨sym, E ++ [(key, A)]⟩ n2 = some A := by
  simp only [PlaylistCollectionR.get]
  have hfind1 : (E ++ [(key, A)]).find? (fun p => p.1 == n2) = none := by
    rw [List.find?_eq_none]
    intro p hp
    simp only [beq_iff_eq]
    rcases List.mem_append.1 hp with hp | hp
    · exact hEn p hp
    · rw [List.mem_singleton] at hp
      intro hpn
      rw [hp] at hpn
      exact hkn hpn
  rw [hfind1, if_neg hsym, hpre, List.find?_append, hEk,
    @List.find?_cons_of_pos _ (fun q => q.1 == key) (key, A) [] (by simp)]
  simp

theorem initLoop_error_of_mem (r : String) (args : List ItemM) :
    ∀ acc : List PlsEntry, ItemM.other r ∈ args →
      ∃ v, PC.initLoop acc args = Except.error (PlsError.invalidItem v) := by
  induction args with
  | nil =>
    intro acc h
    simp at h
  | cons a t ih =>
    intro acc h
    cases a with
    | entry e =>
      have ht : ItemM.other r ∈ t := by
        rcases List.mem_cons.1 h with h1 | h1
        · exact absurd h1 (by simp)
        · exact h1
      obtain ⟨v, hv⟩ := ih (PC.add acc e) ht
      exact ⟨v, by simp [PC.initLoop, PC.addItem, hv]⟩
    | other v =>
      exact ⟨v, by simp [PC.initLoop, PC.addItem]⟩

/-! ## Claim C4 : single-active-binding in the named collection -/

/-- C4 counterexample: starting from an empty no-symbol collection and
adding x -> B, z -> A, then performing the claimed pair add(x, A) followed
by add(y, A) (with x and y distinct), the name x is still bound
afterwards, and the item A ends with the two live names x and y — the
claim's "names contains y but not x" and "at most one live name per item"
both fail at this input. -/
theorem c4_counterexample :
    "x" ∈ (((((PlaylistCollectionR.mk "" []).add "x" ⟨"B", "uB", -1⟩).add "z"
        ⟨"A", "uA", -1⟩).add "x" ⟨"A", "uA", -1⟩).add "y" ⟨"A", "uA", -1⟩).names ∧
    ((((((PlaylistCollectionR.mk "" []).add "x" ⟨"B", "uB", -1⟩).add "z"
        ⟨"A", "uA", -1⟩).add "x" ⟨"A", "uA", -1⟩).add "y"
        ⟨"A", "uA", -1⟩).entries.filter
        (fun p => RPlsEntry.eqPy p.2 ⟨"A", "uA", -1⟩)).map Prod.fst =
      ["x", "y"] := by
  decide

/-- C4 amended: the rebinding behaviour holds from states where neither
prefixed name is bound and no bound item equals A: add(x, A) then add(y, A)
removes A's x-binding, leaves all other bindings untouched, names gains y
(prefixed) and does not contain x (prefixed), and A is then live under
exactly the one name y. -/
theorem c4_amended (c : PlaylistCollectionR) (x y : String) (A : RPlsEntry)
    (hxy : x ≠ y)
    (hx : prefixName c.symbol x ∉ c.names)
    (hy : prefixName c.symbol y ∉ c.names)
    (hA : ∀ p ∈ c.entries, RPlsEntry.eqPy p.2 A = false) :
    ((c.add x A).add y A).names = c.names ++ [prefixName c.symbol y] ∧
    prefixName c.symbol x ∉ ((c.add x A).add y A).names ∧
    ((c.add x A).add y A).entries.filter (fun p => RPlsEntry.eqPy p.2 A) =
      [(prefixName c.symbol y, A)] := by
  simp only [PlaylistCollectionR.names] at hx hy
  have h1x : c.entries.any (fun p => p.1 == prefixName c.symbol x) = false := by
    rw [List.any_eq_false]
    intro p hp
    simp only [beq_iff_eq]
    intro hpk
    exact hx (hpk ▸ List.mem_map_of_mem Prod.fst hp)
  have h2A : c.entries.any (fun p => RPlsEntry.eqPy p.2 A) = false := by
    rw [List.any_eq_false]
    intro p hp
    simp [hA p hp]
  have e1 : c.add x A =
      ⟨c.symbol, c.entries ++ [(prefixName c.symbol x, A)]⟩ := by
    simp only [PlaylistCollectionR.add]
    rw [if_neg (by simp [h1x]), if_neg (by simp [h2A])]
  have hkxy : prefixName c.symbol x ≠ prefixName c.symbol y :=
    prefixName_ne_of_ne c.symbol x y hxy
  have h1y : (c.entries ++ [(prefixName c.symbol x, A)]).any
      (fun p => p.1 == prefixName c.symbol y) = false := by
    rw [List.any_eq_false]
    intro p hp
    rcases List.mem_append.1 hp with hp | hp
    · simp only [beq_iff_eq]
      intro hpk
      exact hy (hpk ▸ List.mem_map_of_mem Prod.fst hp)
    · rw [List.mem_singleton] at hp
      simp [hp, hkxy]
  have h2y : (c.entries ++ [(prefixName c.symbol x, A)]).any
      (fun p => RPlsEntry.eqPy p.2 A) = true := by
    rw [List.any_eq_true]
    exact ⟨(prefixName c.symbol x, A), by simp, by simp [RPlsEntry.eqPy]⟩
  have herase : (c.entries ++ [(prefixName c.symbol x, A)]).eraseP
      (fun p => RPlsEntry.eqPy p.2 A) = c.entries := by
    rw [eraseP_append_of_forall _ _ _ hA,
      List.eraseP_cons_of_pos (by simp [RPlsEntry.eqPy])]
    simp
  have e2 : (c.add x A).add y A =
      ⟨c.symbol, c.entries ++ [(prefixName c.symbol y, A)]⟩ := by
    rw [e1]
    simp only [PlaylistCollectionR.add]
    rw [if_neg (by simp [h1y]), if_pos h2y, herase]
  refine ⟨?_, ?_, ?_⟩
  · rw [e2]
    simp [PlaylistCollectionR.names]
  · rw [e2]
    simp only [PlaylistCollectionR.names, List.map_append, List.map_cons,
      List.map_nil, List.mem_append, List.mem_singleton]
    rintro (h | h)
    · exact hx h
    · exact hkxy h
  · rw [e2]
    rw [List.filter_append, List.filter_eq_nil_iff.mpr
      (fun p hp => by simp [hA p hp])]
    simp [RPlsEntry.eqPy]

/-- Witness for C4 amended at a concrete input: from a collection with one
unrelated binding, the pair of adds leaves names z then y, with x gone. -/
theorem c4_amended_witness :
    ((((PlaylistCollectionR.mk "" [("z", ⟨"Z", "uZ", -1⟩)]).add "x"
        ⟨"A", "uA", -1⟩).add "y" ⟨"A", "uA", -1⟩).names) = ["z", "y"] :=
  ((c4_amended (PlaylistCollectionR.mk "" [("z", ⟨"Z", "uZ", -1⟩)]) "x" "y"
    ⟨"A", "uA", -1⟩ (by decide) (by decide) (by decide)
    (by decide)).1).trans (by decide)

/-! ## Claim C6 : lookup with symbol-prefix retry -/

/-- C6 counterexample: with group symbol s, binding x stores the key s_x;
then the claimed instance add("s_x", A) stores the key s_s_x, and
get("s_x") hits the old binding s_x -> B by exact lookup, returning B
rather than the just-added A. -/
theorem c6_counterexample :
    (((PlaylistCollectionR.mk "s" []).add "x" ⟨"B", "uB", -1⟩).add "s_x"
        ⟨"A", "uA", -1⟩).get "s_x" = some ⟨"B", "uB", -1⟩ ∧
    (⟨"B", "uB", -1⟩ : RPlsEntry) ≠ ⟨"A", "uA", -1⟩ := by
  decide

/-- C6 amended: get performs an exact lookup, retries with the
symbol-prefixed name when the symbol is configured, and fails (NotFound)
when both lookups miss; in particular, after add(n, A) in a collection
with a nonempty group symbol, distinct bound names and n itself not among
them, get(n) returns A. -/
theorem c6_amended (c : PlaylistCollectionR) (n : String) (A : RPlsEntry)
    (hsym : c.symbol ≠ "")
    (hnodup : c.names.Nodup)
    (hn : n ∉ c.names) :
    (c.add n A).get n = some A ∧
    (∀ m, c.entries.find? (fun p => p.1 == m) = none →
      c.entries.find? (fun p => p.1 == prefixName c.symbol m) = none →
      c.get m = none) := by
  simp only [PlaylistCollectionR.names] at hnodup hn
  constructor
  · have hkn : prefixName c.symbol n ≠ n := prefixName_ne_self c.symbol n hsym
    by_cases h1 : c.entries.any (fun p => p.1 == prefixName c.symbol n) = true
    · have e : c.add n A = ⟨c.symbol,
          c.entries.eraseP (fun p => p.1 == prefixName c.symbol n) ++
            [(prefixName c.symbol n, A)]⟩ := by
        simp only [PlaylistCollectionR.add]
        rw [if_pos h1]
      rw [e]
      refine getR_aux c.symbol _ _ n A hsym rfl hkn ?_ ?_
      · intro p hp hpn
        exact hn (hpn ▸ List.mem_map_of_mem Prod.fst (List.mem_of_mem_eraseP hp))
      · exact find?_eraseP_key_none c.entries (prefixName c.symbol n) hnodup
    · have h1b : c.entries.any (fun p => p.1 == prefixName c.symbol n) = false :=
        Bool.eq_false_iff.2 h1
      have h1f : ∀ p ∈ c.entries, (p.1 == prefixName c.symbol n) = false := by
        intro p hp
        exact Bool.eq_false_iff.2 (List.any_eq_false.1 h1b p hp)
      by_cases h2 : c.entries.any (fun p => RPlsEntry.eqPy p.2 A) = true
      · have e : c.add n A = ⟨c.symbol,
            c.entries.eraseP (fun p => RPlsEntry.eqPy p.2 A) ++
              [(prefixName c.symbol n, A)]⟩ := by
          simp only [PlaylistCollectionR.add]
          rw [if_neg h1, if_pos h2]
        rw [e]
        refine getR_aux c.symbol _ _ n A hsym rfl hkn ?_ ?_
        · intro p hp hpn
          exact hn (hpn ▸ List.mem_map_of_mem Prod.fst (List.mem_of_mem_eraseP hp))
        · rw [List.find?_eq_none]
          intro p hp
          simp [h1f p (List.mem_of_mem_eraseP hp)]
      · have e : c.add n A =
            ⟨c.symbol, c.entries ++ [(prefixName c.symbol n, A)]⟩ := by
          simp only [PlaylistCollectionR.add]
          rw [if_neg h1, if_neg h2]
        rw [e]
        refine getR_aux c.symbol _ _ n A hsym rfl hkn ?_ ?_
        · intro p hp hpn
          exact hn (hpn ▸ List.mem_map_of_mem Prod.fst hp)
        · rw [List.find?_eq_none]
          intro p hp
          simp [h1f p hp]
  · intro m hm1 hm2
    simp only [PlaylistCollectionR.get]
    rw [hm1, if_neg hsym, hm2]
    rfl

/-- Witness for C6 amended at a concrete input: with symbol s, after
add("x", A) from empty, get("x") retries the prefixed key s_x and finds A. -/
theorem c6_amended_witness :
    ((PlaylistCollectionR.mk "s" []).add "x" ⟨"A", "uA", -1⟩).get "x" =
      some ⟨"A", "uA", -1⟩ :=
  (c6_amended (PlaylistCollectionR.mk "s" []) "x" ⟨"A", "uA", -1⟩ (by decide)
    (by decide) (by decide)).1

/-! ## Claim C7 : non-Entry arguments -/

/-- C7 counterexample: the radio.pls.py grouped-collection constructor,
given a binding whose value is not a PlsEntry, does not fail at all — it
silently skips the value and returns the empty collection, contradicting
"fails immediately with an InvalidItem error". -/
theorem c7_counterexample :
    PlaylistCollectionR.init "g" [("a", ItemR.other "junk")] =
      PlaylistCollectionR.mk "g" [] := by
  rfl

/-- C7 amended: in make_radio_pls.py, add on a non-PlsEntry fails
immediately with InvalidItem and leaves the entries unchanged (the error
is raised before any mutation), and the varargs constructor fails with
InvalidItem whenever any argument is a non-PlsEntry; the radio.pls.py
grouped constructor instead silently skips non-PlsEntry values. -/
theorem c7_amended (es : List PlsEntry) (r : String) (args : List ItemM) :
    PC.addItem es (ItemM.other r) = Except.error (PlsError.invalidItem r) ∧
    (ItemM.other r ∈ args →
      ∃ v, PC.init args = Except.error (PlsError.invalidItem v)) ∧
    (∀ sym name, PlaylistCollectionR.init sym [(name, ItemR.other r)] =
      PlaylistCollectionR.mk sym []) := by
  refine ⟨rfl, ?_, fun sym name => rfl⟩
  intro hmem
  exact initLoop_error_of_mem r args [] hmem

/-- Witness for C7 amended at a concrete input: a single junk argument
makes the make_radio_pls.py constructor fail with InvalidItem. -/
theorem c7_amended_witness :
    ∃ v, PC.init [ItemM.other "junk"] =
      Except.error (PlsError.invalidItem v) :=
  (c7_amended [] "junk" [ItemM.other "junk"]).2.1 (by simp)

/-! ## Claim C10 : dotted names are silently ignored -/

/-- C10: PlsPlaylist.add with a name containing a dot returns without
binding anything and without raising: the playlist (bindings, order and
names alike) is exactly as before the call. -/
theorem c10_dotted_name_noop (p : PlsPlaylist) (name : String) (item : PPItem) :
    name.data.contains '.' = true → p.add name item = p := by
  intro h
  unfold PlsPlaylist.add
  rw [if_pos h]

/-- Witness for C10 at a concrete input: adding under the dotted name x.y
leaves a nonempty playlist unchanged. -/
theorem c10_dotted_name_noop_witness :
    PlsPlaylist.add ⟨"L", [("a", PPItem.entry ⟨"A", "uA", -1⟩)]⟩ "x.y"
        (PPItem.entry ⟨"B", "uB", -1⟩) =
      ⟨"L", [("a", PPItem.entry ⟨"A", "uA", -1⟩)]⟩ :=
  c10_dotted_name_noop ⟨"L", [("a", PPItem.entry ⟨"A", "uA", -1⟩)]⟩ "x.y"
    (PPItem.entry ⟨"B", "uB", -1⟩) (by decide)

end RadioPls
